import Mathlib

/-!
# Verification of the pathways typing pipelines

This file gives a shallow embedding of the four pipeline scripts
(`create-xlsform/pipeline.py`, `create-cart-diagram/pipeline.py`,
`create-config-template/pipeline.py`, `validate-config/pipeline.py`)
together with the parts of the `pathways.typing` core that the pipelines
call.  Functions whose bodies appear in the pipeline sources are
transcribed from those sources; functions of the `pathways.typing`
library (tree construction, option engine, deduplicator, emitters) are
not part of the source tree, and are modelled from the specification, as
indicated in their doc comments.

Python strings are modelled as `String` (or `List Char` where character
level reasoning is needed), Python dicts as association lists, Python
exceptions as an explicit error type returned through `Except`.
-/

/-- Python exception values raised by the embedded code: `KeyError`
(missing dict key), `FileNotFoundError`, and the library's
`ConfigReferenceError` described by the specification. -/
inductive PyError where
  | keyError (key : String)
  | fileNotFoundError (msg : String)
  | configReferenceError (missing : String)
deriving DecidableEq, Repr

/-! ## Boolean relevance expressions

Modelled from the spec: a relevance expression is a boolean expression
over atomic branch conditions, built from the constant true, atoms,
conjunction (relevance compiler) and disjunction (deduplicator). -/

/-- Boolean expressions over atoms of type `α`. -/
inductive BExpr (α : Type) where
  | tru
  | atom (a : α)
  | and (p q : BExpr α)
  | or (p q : BExpr α)
deriving DecidableEq, Repr

/-- Evaluate a relevance expression under an assignment of atoms. -/
def BExpr.eval (σ : α → Bool) : BExpr α → Bool
  | .tru => true
  | .atom a => σ a
  | .and p q => p.eval σ && q.eval σ
  | .or p q => p.eval σ || q.eval σ

/-- Number of constructors of an expression, used to state that a
child's relevance is never shorter than its parent's. -/
def BExpr.size : BExpr α → Nat
  | .tru => 1
  | .atom _ => 1
  | .and p q => p.size + q.size + 1
  | .or p q => p.size + q.size + 1

/-- Disjunction of a list of expressions (used by the deduplicator to
OR the relevance expressions of a duplicate group). -/
def orAll : List (BExpr α) → BExpr α
  | [] => BExpr.tru
  | [e] => e
  | e :: rest => BExpr.or e (orAll rest)

/-! ## The tree model

Modelled from the spec (section 3): a merged CART tree is a binary tree;
non-terminal nodes carry a bound question, a relevance expression, the
branch condition of each child edge, and a skip flag used by the
deduplicator; terminal nodes carry a relevance expression, the stratum
provenance and the predicted terminal class. -/

/-- Atoms of concrete relevance expressions: a (question name, value)
condition as serialized into the output form's condition syntax. -/
abbrev Atom := String × String

/-- A question binding attached to a node (spec section 3): identity,
label, type, choice values, plus the `required`, `hidden` and
`calculate` attributes set by the option engine and the pipeline. -/
structure Question where
  name : String
  label : String
  qtype : String
  choices : List String
  required : Bool
  hidden : Bool
  calculate : Option String
deriving DecidableEq, Repr

/-- The deduplicator's grouping key: (bound question identity, question
type, choice set) — spec section 4.6. -/
abbrev QKey := String × String × List String

/-- The grouping key of a question. -/
def qkey (q : Question) : QKey := (q.name, q.qtype, q.choices)

/-- The merged tree carrying question bindings and relevance
expressions.  `condL`/`condR` are the branch conditions of the left and
right child edges, `skip` marks a question occurrence collapsed by the
deduplicator. -/
inductive FormTree (α : Type) where
  | leaf (rel : BExpr α) (strata : List String) (cls : String)
  | node (rel : BExpr α) (q : Question) (skip : Bool)
      (condL : α) (l : FormTree α) (condR : α) (r : FormTree α)
deriving DecidableEq, Repr

/-- The relevance expression attached to the root of a (sub)tree. -/
def relOf : FormTree α → BExpr α
  | .leaf rel _ _ => rel
  | .node rel _ _ _ _ _ _ => rel

/-- Pre-order list of emitted question rows: one `(question, relevance)`
pair per non-skipped question node (skipped occurrences were collapsed
by the deduplicator and produce no row). -/
def questionRows : FormTree α → List (Question × BExpr α)
  | .leaf _ _ _ => []
  | .node rel q skip _ l _ r =>
      (if skip then [] else [(q, rel)]) ++ questionRows l ++ questionRows r

/-- Pre-order list of all question occurrences (skipped or not) with
their grouping key and relevance. -/
def occsOf : FormTree α → List (QKey × BExpr α)
  | .leaf _ _ _ => []
  | .node rel q _ _ l _ r => (qkey q, rel) :: (occsOf l ++ occsOf r)

/-- The grouping keys of all question occurrences, in pre-order. -/
def keysOf (t : FormTree α) : List QKey := (occsOf t).map (fun p => p.1)

/-- Pre-order list of all bound questions of the tree. -/
def questionsOf : FormTree α → List Question
  | .leaf _ _ _ => []
  | .node _ q _ _ l _ r => q :: (questionsOf l ++ questionsOf r)

/-- Names of all bound questions of the tree. -/
def questionNames (t : FormTree α) : List String :=
  (questionsOf t).map (fun q => q.name)

/-- All skip flags are clear: the state of every tree before the
deduplicator runs. -/
def noSkipsB : FormTree α → Bool
  | .leaf _ _ _ => true
  | .node _ _ skip _ l _ r => !skip && noSkipsB l && noSkipsB r

/-! ## Dataset version selection (both `load_dataset` functions)

Transcribed from the sources.  Only the version-selection step is
modelled; the subsequent reading of the JSON files is external I/O. -/

/-- A dataset version (only the name matters to version selection). -/
structure DSVersion where
  name : String
deriving DecidableEq, Repr

/-- Transcribed from `create-cart-diagram/pipeline.py`, lines 79-87: the
`for version in dataset.versions` loop.  The `if ds is None: raise`
check sits INSIDE the loop body, so it fires on the first iteration
whenever the first version does not match. -/
def cdVersionLoop (target : String) (ds : Option DSVersion) :
    List DSVersion → Except PyError (Option DSVersion)
  | [] => .ok ds
  | v :: rest =>
      if v.name = target then .ok (some v)
      else if ds = none then
        .error (.fileNotFoundError ("Dataset version `" ++ target ++ "` not found"))
      else cdVersionLoop target ds rest

/-- Transcribed from `create-cart-diagram/pipeline.py` `load_dataset`
(lines 74-90): Python's `if version_name:` is true only for a non-`None`
AND non-empty string; otherwise the latest version is used. -/
def cart_diagram_load_dataset_version (versionName : Option String)
    (latest : DSVersion) (versions : List DSVersion) :
    Except PyError (Option DSVersion) :=
  match versionName with
  | none => .ok (some latest)
  | some s => if s = "" then .ok (some latest) else cdVersionLoop s none versions

/-- Transcribed from `create-xlsform/pipeline.py`, lines 150-153: the
version loop without an in-loop error check — the whole list is
searched. -/
def xfVersionLoop (target : String) : List DSVersion → Option DSVersion
  | [] => none
  | v :: rest => if v.name = target then some v else xfVersionLoop target rest

/-- Transcribed from `create-xlsform/pipeline.py` `load_dataset`
(lines 145-161): the `if ds is None: raise` check sits AFTER the loop,
so the error is raised only when no version in the list matches. -/
def create_xlsform_load_dataset_version (versionName : Option String)
    (latest : DSVersion) (versions : List DSVersion) :
    Except PyError DSVersion :=
  match versionName with
  | none => .ok latest
  | some s =>
      if s = "" then .ok latest
      else
        match xfVersionLoop s versions with
        | some v => .ok v
        | none =>
            .error (.fileNotFoundError ("Dataset version `" ++ s ++ "` not found"))

/-! ## The dispatch of `generate_cart_diagram`

Transcribed from `create-cart-diagram/pipeline.py`, lines 51-61. -/

/-- A Python value as used by the dispatch condition: a string literal
or a boolean. -/
inductive PyVal where
  | str (s : String)
  | bool (b : Bool)
deriving DecidableEq, Repr

/-- Python truthiness of the values above: a string is truthy iff
non-empty. -/
def truthy : PyVal → Bool
  | .str s => !(s == "")
  | .bool b => b

/-- Python's `and`: returns its left operand when that is falsy, its
right operand otherwise. -/
def pyAnd (a b : PyVal) : PyVal := if truthy a then b else a

/-- Transcribed from line 51: `if "urban" and "rural" in data:` — the
condition is `pyAnd` of the string literal `"urban"` and the membership
test `"rural" in data`; the branch is taken iff that value is truthy. -/
def takesMergedPath (dataKeys : List String) : Bool :=
  truthy (pyAnd (.str "urban") (.bool (dataKeys.contains "rural")))

/-! ## The required-flag pass of `generate_form`

Transcribed from `create-xlsform/pipeline.py`, lines 280-284. -/

/-- Transcribed from the loop at lines 280-284: for every node, the
`required` flag is set to whether the bound question's type is one of
`integer`, `decimal`, `select_one`, `text`. -/
def set_required_flags : FormTree α → FormTree α
  | .leaf rel s c => .leaf rel s c
  | .node rel q skip cl l cr r =>
      .node rel
        { q with required := decide (q.qtype ∈ (["integer", "decimal", "select_one", "text"] : List String)) }
        skip cl (set_required_flags l) cr (set_required_flags r)

/-! ## The hide-option loop of `generate_form`

Transcribed from `create-xlsform/pipeline.py`, lines 273-278. -/

/-- Python dict lookup `d[k]`: raises `KeyError` when the key is
absent. -/
def dictGet (d : List (String × String)) (k : String) : Except PyError String :=
  match d.find? (fun kv => decide (kv.1 = k)) with
  | some kv => .ok kv.2
  | none => .error (.keyError k)

/-- A configured option: the `option` kind string and the `config`
dict. -/
structure OptionCfg where
  kind : String
  config : List (String × String)
deriving DecidableEq, Repr

/-- Modelled from the spec (section 4.5, hide): mark the question named
`srcQ` as not offered to the respondent while preserving its logic —
only the presentation flag `hidden` is set. -/
def hideByName (srcQ : String) : FormTree α → FormTree α
  | .leaf rel s c => .leaf rel s c
  | .node rel q skip cl l cr r =>
      .node rel (if q.name = srcQ then { q with hidden := true } else q) skip
        cl (hideByName srcQ l) cr (hideByName srcQ r)

/-- Transcribed from the loop at lines 273-278: for each option, the
inner per-node loop first evaluates `option["config"]["src_question"]`
and only then tests `option["option"] == "hide"`.  A tree always has at
least one pre-order node, so the dict access is reached for EVERY
option, including non-hide options; a config without a `src_question`
entry raises `KeyError` before the kind test.  The net effect of the
inner loop for a hide option is `hideByName`. -/
def generate_form_hide_pass (options : List OptionCfg) (t : FormTree α) :
    Except PyError (FormTree α) :=
  match options with
  | [] => .ok t
  | o :: rest =>
      match dictGet o.config "src_question" with
      | .error e => .error e
      | .ok srcQ =>
          generate_form_hide_pass rest (if o.kind = "hide" then hideByName srcQ t else t)

/-! ## The typing-group label block of `generate_form`

Transcribed from `create-xlsform/pipeline.py`, lines 289-293.  Python
strings are modelled as `List Char` here so that `str.replace` can be
reasoned about character by character; Python dicts as association
lists with in-place overwrite. -/

/-- A Python string at character level. -/
abbrev PStr := List Char

/-- Python dict assignment `d[k] = v`: overwrite in place, or append. -/
def pdictSet (d : List (PStr × PStr)) (k v : PStr) : List (PStr × PStr) :=
  match d with
  | [] => [(k, v)]
  | kv :: rest => if kv.1 = k then (k, v) :: rest else kv :: pdictSet rest k v

/-- Python dict lookup returning `none` when absent. -/
def pdictLookup (d : List (PStr × PStr)) (k : PStr) : Option PStr :=
  match d.find? (fun kv => decide (kv.1 = k)) with
  | some kv => some kv.2
  | none => none

/-- The pattern of the `key.replace("typing_group", "")` call. -/
def tgPat : PStr := "typing_group".toList

/-- The prefix tested by `key.startswith("typing_group_label")`. -/
def tglHead : PStr := "typing_group_label".toList

/-- Python's `s.replace("typing_group", "")`: scan left to right,
removing each non-overlapping occurrence of the pattern. -/
def removeTypingGroup (s : PStr) : PStr :=
  if h : tgPat.isPrefixOf s then removeTypingGroup (s.drop 12)
  else
    match s with
    | [] => []
    | c :: rest => c :: removeTypingGroup rest
termination_by s.length
decreasing_by
  · have hp : tgPat <+: s := by
      exact ( List.isPrefixOf_iff_prefix).mp h
    have hlen : 12 ≤ s.length := by
      have := hp.length_le
      simpa [tgPat] using this
    simp only [List.length_drop]
    omega
  · simp

/-- One iteration of the settings loop at lines 290-293: if the key
starts with `"typing_group_label"` and the value is truthy (non-empty),
store the value under the key with `"typing_group"` removed. -/
def tglStep (d : List (PStr × PStr)) (kv : PStr × PStr) : List (PStr × PStr) :=
  if tglHead.isPrefixOf kv.1 && !kv.2.isEmpty then
    pdictSet d (removeTypingGroup kv.1) kv.2
  else d

/-- Transcribed from lines 289-293: start from the default dict
`{"label::English (en)": "Typing"}` and fold the settings through
`tglStep`. -/
def typing_group_label (settings : List (PStr × PStr)) : List (PStr × PStr) :=
  settings.foldl tglStep [("label::English (en)".toList, "Typing".toList)]

/-! ## The option engine

Modelled from the spec (section 4.5): the engine applies the
caller-supplied ordered list of configured transforms; each transform
is a function from trees to trees; a transform that references a
question identifier not present in the tree, or whose config lacks the
reference entry, fails with `ConfigReferenceError` naming the missing
identifier.  Only the transform kinds whose effect the claims below
depend on (`hide`, `calculate`) are given a structural effect; the
remaining kinds keep the tree unchanged, which is all the ordering
claims C3 and C5 observe. -/

/-- Modelled from the spec (section 4.5, calculate): attach a derived
field to the referenced question without altering traversal
structure. -/
def setCalculateByName (srcQ : String) : FormTree α → FormTree α
  | .leaf rel s c => .leaf rel s c
  | .node rel q skip cl l cr r =>
      .node rel (if q.name = srcQ then { q with calculate := some srcQ } else q) skip
        cl (setCalculateByName srcQ l) cr (setCalculateByName srcQ r)

/-- Modelled from the spec (section 4.5): one configured transform. -/
def applyOption (o : OptionCfg) (t : FormTree α) : Except PyError (FormTree α) :=
  if o.kind = "hide" then
    match o.config.find? (fun kv => decide (kv.1 = "src_question")) with
    | some kv =>
        if kv.2 ∈ questionNames t then .ok (hideByName kv.2 t)
        else .error (.configReferenceError kv.2)
    | none => .error (.configReferenceError "src_question")
  else if o.kind = "calculate" then
    match o.config.find? (fun kv => decide (kv.1 = "src_question")) with
    | some kv =>
        if kv.2 ∈ questionNames t then .ok (setCalculateByName kv.2 t)
        else .error (.configReferenceError kv.2)
    | none => .error (.configReferenceError "src_question")
  else .ok t

/-- Modelled from the spec (section 4.5): the engine applies the
configured transforms one after the other in caller order, aborting on
the first error. -/
def apply_options (options : List OptionCfg) (t : FormTree α) :
    Except PyError (FormTree α) :=
  match options with
  | [] => .ok t
  | o :: rest =>
      match applyOption o t with
      | .ok t' => apply_options rest t'
      | .error e => .error e

/-! ## The stage sequence of `generate_form`

Transcribed from `create-xlsform/pipeline.py`, lines 211-326: the
statements of `generate_form` in source order, one event per pipeline
stage application. -/

/-- One stage application inside `generate_form`. -/
inductive StageEvent where
  | parseRpart (stratum : String)
  | buildTree (stratum : String)
  | mergeTrees
  | createQuestions
  | compileRelevanceStage
  | applyOptionsStage
  | addSegmentNotes
  | enforceRelevance
  | setChoiceFilters
  | skipDuplicates
  | applyHideOptionsStage
  | setRequired
  | surveyRows
  | choicesRows
  | settingsRows
  | writeWorkbook
  | formDiagram
deriving DecidableEq, Repr

/-- Transcribed from `generate_form` (lines 211-326): the stage
applications in source order.  `skipUnavailableChoices` guards
`set_choice_filters` (line 265) and `mergeDuplicateQuestions` guards
`skip_duplicate_questions` (line 269); the hide-option loop
(lines 273-278) runs after both, followed by the required-flag loop and
the emitters. -/
def generate_form_trace (skipUnavailableChoices mergeDuplicateQuestions : Bool) :
    List StageEvent :=
  [.parseRpart "rural", .parseRpart "urban",
   .buildTree "rural", .buildTree "urban", .mergeTrees,
   .createQuestions, .compileRelevanceStage,
   .applyOptionsStage, .addSegmentNotes, .enforceRelevance]
  ++ (if skipUnavailableChoices then [.setChoiceFilters] else [])
  ++ (if mergeDuplicateQuestions then [.skipDuplicates] else [])
  ++ [.applyHideOptionsStage, .setRequired,
      .surveyRows, .choicesRows, .settingsRows, .writeWorkbook, .formDiagram]

/-- The component of the spec's data-flow chain (section 2) performing
each stage event, as a rank in the claimed order: Split Parser 0, Tree
Builder 1, Tree Merger 2, Relevance Compiler 3, Option Engine 4 (the
spec's section 2 table assigns the hide transform to the Option
Engine), Deduplicator 5, Form & Diagram Emitters 6.  Question binding
and workbook I/O are not components of the claimed chain and get no
rank. -/
def componentRank : StageEvent → Option Nat
  | .parseRpart _ => some 0
  | .buildTree _ => some 1
  | .mergeTrees => some 2
  | .createQuestions => none
  | .compileRelevanceStage => some 3
  | .applyOptionsStage => some 4
  | .addSegmentNotes => some 4
  | .enforceRelevance => some 4
  | .setChoiceFilters => some 4
  | .skipDuplicates => some 5
  | .applyHideOptionsStage => some 4
  | .setRequired => some 6
  | .surveyRows => some 6
  | .choicesRows => some 6
  | .settingsRows => some 6
  | .writeWorkbook => none
  | .formDiagram => some 6

/-- A list of ranks is monotone (each adjacent pair ordered). -/
def ranksMonotoneB : List Nat → Bool
  | [] => true
  | [_] => true
  | a :: b :: rest => (a ≤ b : Bool) && ranksMonotoneB (b :: rest)

/-- Claim C5's stage-order property at given pipeline flags: the
component ranks along the trace are monotone (no stage runs before its
predecessor in the claimed chain). -/
def stageOrderClaim (skipUnavailableChoices mergeDuplicateQuestions : Bool) : Prop :=
  ranksMonotoneB
    ((generate_form_trace skipUnavailableChoices mergeDuplicateQuestions).filterMap
      componentRank) = true

/-- The amended ranks: identical to `componentRank` except that the
hide-option pass is placed between the Deduplicator (5) and the
emitters (7). -/
def amendedRank : StageEvent → Option Nat
  | .parseRpart _ => some 0
  | .buildTree _ => some 1
  | .mergeTrees => some 2
  | .createQuestions => none
  | .compileRelevanceStage => some 3
  | .applyOptionsStage => some 4
  | .addSegmentNotes => some 4
  | .enforceRelevance => some 4
  | .setChoiceFilters => some 4
  | .skipDuplicates => some 5
  | .applyHideOptionsStage => some 6
  | .setRequired => some 7
  | .surveyRows => some 7
  | .choicesRows => some 7
  | .settingsRows => some 7
  | .writeWorkbook => none
  | .formDiagram => some 7

/-- Events that apply a configured transform of the Option Engine's
portfolio (split/calculate/hide/segment-note/relevance
enforcement/choice filtering — claim C3's list). -/
def transformEventB : StageEvent → Bool
  | .applyOptionsStage => true
  | .addSegmentNotes => true
  | .enforceRelevance => true
  | .setChoiceFilters => true
  | .applyHideOptionsStage => true
  | _ => false

/-- Claim C3's no-deferral property at given pipeline flags: from the
Deduplicator event onwards, no configured transform is applied. -/
def noDeferredTransforms (skipUnavailableChoices mergeDuplicateQuestions : Bool) : Prop :=
  (((generate_form_trace skipUnavailableChoices mergeDuplicateQuestions).dropWhile
      (fun e => !(e == StageEvent.skipDuplicates))).all
    (fun e => !transformEventB e)) = true

/-! ## The form and diagram emitters

Modelled from the spec (section 4.7): the form emitter walks the tree
in pre-order and produces one row per non-skipped question binding; the
choice emitter produces one row per (question, choice value) pair in
first-seen order; the diagram emitter produces one node declaration per
tree node and one edge declaration per parent-child pair, all by
structural recursion with no unordered iteration. -/

/-- Serialization of a relevance expression into the output form's
condition syntax. -/
def relString : BExpr Atom → String
  | .tru => ""
  | .atom a => "$\x7b" ++ a.1 ++ "\x7d = " ++ a.2
  | .and p q => relString p ++ " and " ++ relString q
  | .or p q => "(" ++ relString p ++ " or " ++ relString q ++ ")"

/-- One row of the survey sheet. -/
structure SurveyRow where
  name : String
  rowType : String
  label : String
  relevant : String
  required : Bool
deriving DecidableEq, Repr

/-- The survey row of one bound question. -/
def mkSurveyRow (p : Question × BExpr Atom) : SurveyRow :=
  { name := p.1.name, rowType := p.1.qtype, label := p.1.label,
    relevant := relString p.2, required := p.1.required }

/-- Modelled from the spec (section 4.7): pre-order traversal producing
one row per node that carries a non-skipped question binding. -/
def get_survey_rows : FormTree Atom → List SurveyRow
  | .leaf _ _ _ => []
  | .node rel q skip _ l _ r =>
      (if skip then [] else [mkSurveyRow (q, rel)])
      ++ get_survey_rows l ++ get_survey_rows r

/-- All (question name, choice value) pairs of the tree in pre-order. -/
def choicePairsOf : FormTree α → List (String × String)
  | .leaf _ _ _ => []
  | .node _ q _ _ l _ r =>
      q.choices.map (fun c => (q.name, c)) ++ choicePairsOf l ++ choicePairsOf r

/-- Keep the first occurrence of each element, dropping later
duplicates. -/
def firstSeenAux (seen : List (String × String)) :
    List (String × String) → List (String × String)
  | [] => []
  | p :: rest =>
      if p ∈ seen then firstSeenAux seen rest
      else p :: firstSeenAux (p :: seen) rest

/-- Modelled from the spec (section 4.7): one row per (question, choice
value) pair, in first-seen order. -/
def get_choices_rows (t : FormTree α) : List (String × String) :=
  firstSeenAux [] (choicePairsOf t)

/-- Edge label text of a branch condition. -/
def atomLabel (a : Atom) : String := a.1 ++ " = " ++ a.2

/-- Modelled from the spec (section 4.7): one node declaration per tree
node (label = question label, or the predicted class for terminals);
`skipNotes` drops the declarations of note-type questions. -/
def diagNodeLines (skipNotes : Bool) (id : String) : FormTree Atom → List String
  | .leaf _ _ cls => [id ++ "[" ++ cls ++ "]"]
  | .node _ q _ _ l _ r =>
      (if skipNotes && q.qtype == "note" then [] else [id ++ "[" ++ q.label ++ "]"])
      ++ diagNodeLines skipNotes (id ++ "L") l ++ diagNodeLines skipNotes (id ++ "R") r

/-- Modelled from the spec (section 4.7): one edge declaration per
parent-child pair, labelled with the branch condition. -/
def diagEdgeLines (id : String) : FormTree Atom → List String
  | .leaf _ _ _ => []
  | .node _ _ _ cl l cr r =>
      (id ++ " -->|" ++ atomLabel cl ++ "| " ++ id ++ "L")
      :: (id ++ " -->|" ++ atomLabel cr ++ "| " ++ id ++ "R")
      :: (diagEdgeLines (id ++ "L") l ++ diagEdgeLines (id ++ "R") r)

/-- Modelled from the spec (section 4.7): the diagram text, one
statement per line, node declarations then edge declarations, both in
pre-order. -/
def create_form_diagram (t : FormTree Atom) (skipNotes : Bool) : String :=
  String.intercalate "\n"
    ("flowchart TD" :: (diagNodeLines skipNotes "n" t ++ diagEdgeLines "n" t))

/-! ## The relevance compiler

Modelled from the spec (section 4.4) and from the relevance loop of
`generate_form` (lines 244-247, calling the library's
`get_xlsform_relevance` per node): a depth-first pre-order traversal
annotating every node with the AND of the branch conditions along its
ancestor path; the root receives the constant true. -/

/-- Modelled from the spec (section 4.4): annotate the tree below a
node whose accumulated relevance is `parent`; each child's relevance is
the parent's conjoined with the one atomic branch condition of its
edge. -/
def compile_relevance (parent : BExpr α) : FormTree α → FormTree α
  | .leaf _ s c => .leaf parent s c
  | .node _ q skip cl l cr r =>
      .node parent q skip
        cl (compile_relevance (BExpr.and parent (BExpr.atom cl)) l)
        cr (compile_relevance (BExpr.and parent (BExpr.atom cr)) r)

/-- Every non-root node's relevance is its parent's relevance conjoined
with exactly the one atomic condition of its edge (claim C6's per-node
shape, checked structurally). -/
def childShapeB [DecidableEq α] : FormTree α → Bool
  | .leaf _ _ _ => true
  | .node rel _ _ cl l cr r =>
      decide (relOf l = BExpr.and rel (BExpr.atom cl))
      && decide (relOf r = BExpr.and rel (BExpr.atom cr))
      && childShapeB l && childShapeB r

/-! ## The deduplicator

Modelled from the spec (section 4.6), named after the library function
`skip_duplicate_questions` called at line 270: group question
occurrences by (bound question identity, question type, choice set)
ignoring position; a group with more than one member is collapsed — its
first occurrence in pre-order keeps its row and takes the OR of the
whole group's relevance expressions, the later occurrences are marked
skipped and emit no row; questions, structure and leaves are otherwise
unchanged. -/

/-- The relevance expressions of all occurrences with the given key, in
pre-order. -/
def groupRels (k : QKey) (occs : List (QKey × BExpr α)) : List (BExpr α) :=
  (occs.filter (fun p => decide (p.1 = k))).map (fun p => p.2)

/-- The rewrite pass of the deduplicator: `occs` is the full pre-order
occurrence list of the tree, `seen` the keys already visited; returns
the rewritten subtree and the updated seen set. -/
def markDup (occs : List (QKey × BExpr α)) (seen : List QKey) :
    FormTree α → FormTree α × List QKey
  | .leaf rel s c => (.leaf rel s c, seen)
  | .node rel q skip cl l cr r =>
      let k := qkey q
      let skip2 := skip || decide (k ∈ seen)
      let rel2 :=
        if k ∈ seen then rel
        else if 1 < (groupRels k occs).length then orAll (groupRels k occs) else rel
      let seen1 := if k ∈ seen then seen else k :: seen
      let res1 := markDup occs seen1 l
      let res2 := markDup occs res1.2 r
      (.node rel2 q skip2 cl res1.1 cr res2.1, res2.2)

/-- Modelled from the spec (section 4.6): the deduplicator. -/
def skip_duplicate_questions (t : FormTree α) : FormTree α :=
  (markDup (occsOf t) [] t).1

/-- The seen-set state after scanning a list of occurrences. -/
def seenAfter (seen : List QKey) (xs : List (QKey × BExpr α)) : List QKey :=
  xs.foldl (fun s p => if p.1 ∈ s then s else p.1 :: s) seen

/-- The emitted (key, relevance) rows of the deduplicated tree, as a
scan over the pre-order occurrence list: the first occurrence of each
key emits one row whose relevance is the OR of its whole group when the
group has more than one member. -/
def dedupRowsAux (occs : List (QKey × BExpr α)) :
    List QKey → List (QKey × BExpr α) → List (QKey × BExpr α)
  | _, [] => []
  | seen, p :: rest =>
      if p.1 ∈ seen then dedupRowsAux occs seen rest
      else
        (p.1, if 1 < (groupRels p.1 occs).length then orAll (groupRels p.1 occs) else p.2)
          :: dedupRowsAux occs (p.1 :: seen) rest

/-- The emitted question rows keyed by grouping key. -/
def rowKeyRels (t : FormTree α) : List (QKey × BExpr α) :=
  (questionRows t).map (fun p => (qkey p.1, p.2))

/-- The relevance of the single emitted row for a key, if any. -/
def rowRelFor (k : QKey) (t : FormTree α) : Option (BExpr α) :=
  ((rowKeyRels t).find? (fun p => decide (p.1 = k))).map (fun p => p.2)

/-- The number of occurrences of a key in a key list (the size of the
key's duplicate group). -/
def keyCount (k : QKey) (ks : List QKey) : Nat :=
  (ks.filter (fun x => decide (x = k))).length

/-- The number of duplicate groups of the tree: keys with more than one
occurrence. -/
def dupGroupCount (t : FormTree α) : Nat :=
  ((keysOf t).dedup.filter (fun k => 1 < keyCount k (keysOf t))).length

/-- Leaves of the tree with, for each, the (key, relevance) pairs of
its ancestor question nodes and its own (relevance, strata, class). -/
def leavesWithPath (anc : List (QKey × BExpr α)) :
    FormTree α → List (List (QKey × BExpr α) × (BExpr α × List String × String))
  | .leaf rel s c => [(anc, (rel, s, c))]
  | .node rel q _ _ l _ r =>
      leavesWithPath (anc ++ [(qkey q, rel)]) l
      ++ leavesWithPath (anc ++ [(qkey q, rel)]) r

/-- Leaves of the tree with the keys of their ancestor question nodes
and their own (relevance, strata, class). -/
def leavesWithKeys (anc : List QKey) :
    FormTree α → List (List QKey × (BExpr α × List String × String))
  | .leaf rel s c => [(anc, (rel, s, c))]
  | .node _ q _ _ l _ r =>
      leavesWithKeys (anc ++ [qkey q]) l ++ leavesWithKeys (anc ++ [qkey q]) r

/-- A leaf is reachable in the pre-dedup tree under an assignment: its
own relevance holds and every ancestor question's relevance holds. -/
def reachedOrig (σ : α → Bool)
    (e : List (QKey × BExpr α) × (BExpr α × List String × String)) : Prop :=
  e.2.1.eval σ = true ∧ ∀ p ∈ e.1, (p.2 : BExpr α).eval σ = true

/-- A leaf is answerable in the deduplicated tree under an assignment:
its own relevance holds and, for each ancestor question key, the single
emitted row for that key is shown. -/
def reachedDedup (σ : α → Bool) (t : FormTree α)
    (e : List QKey × (BExpr α × List String × String)) : Prop :=
  e.2.1.eval σ = true ∧ ∀ k ∈ e.1, ∃ rel, rowRelFor k t = some rel ∧ rel.eval σ = true

/-- The number of distinct keys of a scan not yet seen. -/
def distinctNewCount (seen : List QKey) : List QKey → Nat
  | [] => 0
  | k :: rest =>
      if k ∈ seen then distinctNewCount seen rest
      else 1 + distinctNewCount (k :: seen) rest

/-! ## Concrete inputs used by witnesses and counterexamples -/

/-- A two-leaf terminal subtree used to build concrete trees. -/
def leafPair (rel : BExpr Atom) (s : List String) (c₁ c₂ : String)
    (q : Question) : FormTree Atom :=
  FormTree.node rel q false (q.name, "yes") (.leaf (rel.and (.atom (q.name, "yes"))) s c₁)
    (q.name, "no") (.leaf (rel.and (.atom (q.name, "no"))) s c₂)

/-- A concrete question binding. -/
def qA : Question :=
  { name := "hh_size", label := "Household size", qtype := "integer",
    choices := [], required := false, hidden := false, calculate := none }

/-- A single concrete node used as the tree of the `KeyError`
counterexample. -/
def tOneNode : FormTree Atom :=
  FormTree.node BExpr.tru qA false ("hh_size", "small")
    (.leaf (BExpr.atom ("hh_size", "small")) ["rural"] "A")
    ("hh_size", "large")
    (.leaf (BExpr.atom ("hh_size", "large")) ["rural"] "B")

/-- A concrete select-one question occurring three times in `t3`. -/
def q3 : Question :=
  { name := "water_source", label := "Water source", qtype := "select_one",
    choices := ["well", "tap"], required := false, hidden := false, calculate := none }

/-- A tree with one duplicate group of THREE occurrences of the same
question: the question-row decrease under deduplication is 2, while the
number of duplicate groups is 1. -/
def t3 : FormTree Atom :=
  .node BExpr.tru q3 false
    ("water_source", "well")
    (.node (BExpr.atom ("water_source", "well")) q3 false
      ("water_source", "well") (.leaf (BExpr.atom ("water_source", "well")) ["rural"] "A")
      ("water_source", "tap") (.leaf (BExpr.atom ("water_source", "tap")) ["rural"] "B"))
    ("water_source", "tap")
    (.node (BExpr.atom ("water_source", "tap")) q3 false
      ("water_source", "well") (.leaf (BExpr.atom ("water_source", "well")) ["urban"] "A")
      ("water_source", "tap") (.leaf (BExpr.atom ("water_source", "tap")) ["urban"] "C"))

/-- The root question of the two-strata example trees. -/
def qR : Question :=
  { name := "strata", label := "Strata", qtype := "select_one",
    choices := ["rural", "urban"], required := false, hidden := false, calculate := none }

/-- The question bound in both branches of the example trees. -/
def q6 : Question :=
  { name := "electricity", label := "Electricity", qtype := "select_one",
    choices := ["yes", "no"], required := false, hidden := false, calculate := none }

/-- A tree with the same question bound in two structurally distinct
branches (the spec's section 8 deduplication scenario). -/
def t6 : FormTree Atom :=
  .node BExpr.tru qR false
    ("strata", "rural")
    (.node BExpr.tru q6 false
      ("electricity", "yes") (.leaf BExpr.tru ["rural"] "A")
      ("electricity", "no") (.leaf BExpr.tru ["rural"] "B"))
    ("strata", "urban")
    (.node BExpr.tru q6 false
      ("electricity", "yes") (.leaf BExpr.tru ["urban"] "A")
      ("electricity", "no") (.leaf BExpr.tru ["urban"] "C"))

/-- The section 8 scenario tree with compiled relevance, used as the
deduplication witness input. -/
def tW : FormTree Atom := compile_relevance BExpr.tru t6

/-- The first leaf of `tW` together with its ancestor path. -/
def eW : List (QKey × BExpr Atom) × (BExpr Atom × List String × String) :=
  ([(qkey qR, BExpr.tru),
    (qkey q6, BExpr.and BExpr.tru (BExpr.atom ("strata", "rural")))],
   (BExpr.and (BExpr.and BExpr.tru (BExpr.atom ("strata", "rural")))
      (BExpr.atom ("electricity", "yes")),
    ["rural"], "A"))

/-! # Theorems -/

/-- Claim C10: the dispatch of `generate_cart_diagram` takes the merged
two-strata path iff the key `"rural"` is present: the literal
`"urban"` in `"urban" and "rural" in data` is a constant truthy operand
that is never a membership test, and the single-tree path is taken
exactly when `"rural"` is absent.  The concrete key sets are the two
shapes returned by `load_dataset` (lines 117-119). -/
theorem claim_C10_dispatch_tests_only_rural :
    (∀ dataKeys : List String, takesMergedPath dataKeys = dataKeys.contains "rural")
    ∧ takesMergedPath ["rural", "version"] = true
    ∧ takesMergedPath ["single", "version"] = false
    ∧ takesMergedPath ["urban", "single", "version"] = false := by
  refine ⟨fun dataKeys => ?_, by decide, by decide, by decide⟩
  rfl

/-- Claim C8 counterexample: the claim quantifies over every non-`None`
`version_name`, but for the non-`None` empty string (which is falsy in
Python) `create-cart-diagram`'s `load_dataset` does not raise even
though the first (and only) version's name `"v1"` differs from it — it
silently returns the latest version. -/
theorem claim_C8_counterexample :
    cart_diagram_load_dataset_version (some "") ⟨"v2"⟩ [⟨"v1"⟩] = .ok (some ⟨"v2"⟩)
    ∧ ∀ msg : String,
        cart_diagram_load_dataset_version (some "") ⟨"v2"⟩ [⟨"v1"⟩]
          ≠ .error (.fileNotFoundError msg) := by
  refine ⟨rfl, fun msg h => ?_⟩
  simp [cart_diagram_load_dataset_version] at h

/-- Claim C8 (amended to truthy, i.e. non-empty, `version_name`): with a
non-empty `version_name` and a non-empty version list whose first
version's name differs, `create-cart-diagram`'s `load_dataset` raises
`FileNotFoundError` even when a later version matches; it returns a
matching version only when that version is listed first; and
`create-xlsform`'s `load_dataset` searches the whole list, succeeding
with a version of the requested name whenever any list member
matches. -/
theorem claim_C8_cart_diagram_version_lookup_raises_unless_first
    (s : String) (hs : s ≠ "") (lat v : DSVersion) (rest : List DSVersion)
    (hv : v.name ≠ s) :
    cart_diagram_load_dataset_version (some s) lat (v :: rest)
        = .error (.fileNotFoundError ("Dataset version `" ++ s ++ "` not found"))
    ∧ (∀ (w : DSVersion) (rest' : List DSVersion), w.name = s →
        cart_diagram_load_dataset_version (some s) lat (w :: rest') = .ok (some w))
    ∧ (∀ (vs : List DSVersion) (w : DSVersion), w ∈ vs → w.name = s →
        ∃ u, create_xlsform_load_dataset_version (some s) lat vs = .ok u ∧ u.name = s) := by
  refine ⟨?_, ?_, ?_⟩
  · simp only [cart_diagram_load_dataset_version, if_neg hs, cdVersionLoop, if_neg hv]
    rfl
  · intro w rest' hw
    simp only [cart_diagram_load_dataset_version, if_neg hs, cdVersionLoop, if_pos hw]
  · intro vs w hmem hw
    have hfind : ∃ u, xfVersionLoop s vs = some u ∧ u.name = s := by
      induction vs with
      | nil => cases hmem
      | cons x xs ih =>
          by_cases hx : x.name = s
          · exact ⟨x, by simp [xfVersionLoop, hx], hx⟩
          · rcases List.mem_cons.mp hmem with h | h
            · exact absurd (h ▸ hw) hx
            · rcases ih h with ⟨u, hu, hn⟩
              exact ⟨u, by simp [xfVersionLoop, hx, hu], hn⟩
    rcases hfind with ⟨u, hu, hn⟩
    refine ⟨u, ?_, hn⟩
    simp [create_xlsform_load_dataset_version, if_neg hs, hu]

/-- Claim C8 witness: the amended theorem applied at `version_name =
"v2"`, versions `[⟨"v1"⟩, ⟨"v2"⟩]`: the cart-diagram lookup raises even
though the second version matches, and the xlsform lookup finds it. -/
theorem claim_C8_witness :
    cart_diagram_load_dataset_version (some "v2") ⟨"latest"⟩ [⟨"v1"⟩, ⟨"v2"⟩]
        = .error (.fileNotFoundError ("Dataset version `" ++ "v2" ++ "` not found"))
    ∧ ∃ u, create_xlsform_load_dataset_version (some "v2") ⟨"latest"⟩ [⟨"v1"⟩, ⟨"v2"⟩]
        = .ok u ∧ u.name = "v2" := by
  have h := claim_C8_cart_diagram_version_lookup_raises_unless_first
    "v2" (by decide) ⟨"latest"⟩ ⟨"v1"⟩ [⟨"v2"⟩] (by decide)
  exact ⟨h.1, h.2.2 [⟨"v1"⟩, ⟨"v2"⟩] ⟨"v2"⟩ (by simp) rfl⟩

/-- Claim C4: after the required-flag pass of `generate_form`
(lines 280-284), every bound question's `required` flag is true iff its
type is one of `integer`, `decimal`, `select_one`, `text`. -/
theorem claim_C4_required_iff_type (t : FormTree Atom) (q : Question)
    (hq : q ∈ questionsOf (set_required_flags t)) :
    q.required = true ↔ q.qtype ∈ (["integer", "decimal", "select_one", "text"] : List String) := by
  induction t with
  | leaf rel s c => simp [set_required_flags, questionsOf] at hq
  | node rel q₀ skip cl l cr r ihl ihr =>
      simp only [set_required_flags, questionsOf, List.mem_cons, List.mem_append] at hq
      rcases hq with h | h | h
      · subst h
        simp
      · exact ihl h
      · exact ihr h

/-- Claim C4 witness: the theorem applied to the concrete single-node
tree `tOneNode`, whose question has type `integer`. -/
theorem claim_C4_witness :
    ∃ q ∈ questionsOf (set_required_flags tOneNode),
      (q.required = true ↔ q.qtype ∈ (["integer", "decimal", "select_one", "text"] : List String)) := by
  refine ⟨{ qA with required := true }, by decide, ?_⟩
  exact claim_C4_required_iff_type tOneNode _ (by decide)

/-- Claim C2 (code bug): the hide-option loop of `generate_form`
(lines 273-278) evaluates `option["config"]["src_question"]` for every
option before testing the option kind, so an options list containing a
non-hide option whose config has no `src_question` entry makes the loop
raise `KeyError` — not the `ConfigReferenceError` the claim (and the
spec's error taxonomy, section 7) requires.  Evaluated here at the
failing input: a single `split` option with an empty config and a tree
with one bound question. -/
theorem claim_C2_hide_pass_keyerror :
    generate_form_hide_pass [⟨"split", []⟩] tOneNode = .error (.keyError "src_question")
    ∧ ∀ missing : String,
        generate_form_hide_pass [⟨"split", []⟩] tOneNode
          ≠ .error (.configReferenceError missing) := by
  refine ⟨rfl, fun missing h => ?_⟩
  simp [generate_form_hide_pass, dictGet] at h

/-! ### Helper lemmas for the typing-group label block -/

/-- Scanning past a character that cannot start the pattern keeps it. -/
theorem removeTypingGroup_cons_ne (c : Char) (hc : ('t' == c) = false) (rest : PStr) :
    removeTypingGroup (c :: rest) = c :: removeTypingGroup rest := by
  have hpre : tgPat.isPrefixOf (c :: rest) = false := by
    have ht : tgPat = 't' :: "yping_group".toList := by decide
    rw [ht, List.isPrefixOf_cons₂, hc, Bool.false_and]
  rw [removeTypingGroup]
  simp [hpre]

/-- A leading occurrence of the pattern is removed. -/
theorem removeTypingGroup_pat_append (s : PStr) :
    removeTypingGroup (tgPat ++ s) = removeTypingGroup s := by
  have hpre : tgPat.isPrefixOf (tgPat ++ s) = true := by
    exact ( List.isPrefixOf_iff_prefix).mpr ⟨s, rfl⟩
  rw [removeTypingGroup]
  simp only [hpre, dite_true]
  rw [List.drop_left' (by decide : tgPat.length = 12)]

/-- The residue `"_label" ++ r` passes through the scan unchanged on
its first six characters. -/
theorem removeTypingGroup_keeps_label_head (r : PStr) :
    ("_label".toList).isPrefixOf (removeTypingGroup ("_label".toList ++ r)) = true := by
  have h2 : "_label".toList ++ r = '_' :: 'l' :: 'a' :: 'b' :: 'e' :: 'l' :: r := rfl
  rw [h2,
      removeTypingGroup_cons_ne '_' (by decide),
      removeTypingGroup_cons_ne 'l' (by decide),
      removeTypingGroup_cons_ne 'a' (by decide),
      removeTypingGroup_cons_ne 'b' (by decide),
      removeTypingGroup_cons_ne 'e' (by decide),
      removeTypingGroup_cons_ne 'l' (by decide)]
  simp [List.isPrefixOf]

/-- Removing `"typing_group"` from a key starting with
`"typing_group_label"` yields a key starting with `"_label"`. -/
theorem removeTypingGroup_of_tgl (k : PStr) (h : tglHead.isPrefixOf k = true) :
    ("_label".toList).isPrefixOf (removeTypingGroup k) = true := by
  rcases ( List.isPrefixOf_iff_prefix).mp h with ⟨r, hr⟩
  have hsplit : tglHead = tgPat ++ "_label".toList := by decide
  have hk : k = tgPat ++ ("_label".toList ++ r) := by
    rw [← hr, hsplit, List.append_assoc]
  rw [hk, removeTypingGroup_pat_append]
  exact removeTypingGroup_keeps_label_head r

/-- A key starting with `"_label"` is never the default column
`"label::English (en)"`. -/
theorem label_prefixed_ne_default (k : PStr)
    (h : ("_label".toList).isPrefixOf k = true) :
    k ≠ "label::English (en)".toList := by
  intro heq
  rw [heq] at h
  exact absurd h (by decide)

/-- Updating a dict at a different key leaves a lookup unchanged. -/
theorem pdictLookup_pdictSet_ne (d : List (PStr × PStr)) (k' v k₀ : PStr)
    (h : k' ≠ k₀) : pdictLookup (pdictSet d k' v) k₀ = pdictLookup d k₀ := by
  induction d with
  | nil => simp [pdictSet, pdictLookup, List.find?, h]
  | cons kv rest ih =>
      by_cases hk : kv.1 = k'
      · simp only [pdictSet, if_pos hk, pdictLookup, List.find?]
        rw [show (decide (k' = k₀)) = false by simp [h]]
        rw [show (decide (kv.1 = k₀)) = false by simp [hk, h]]
      · simp only [pdictSet, if_neg hk, pdictLookup, List.find?]
        by_cases hk₀ : kv.1 = k₀
        · simp [hk₀]
        · rw [show (decide (kv.1 = k₀)) = false by simp [hk₀]]
          exact ih

/-- The assigned key is a key of the updated dict. -/
theorem mem_keys_pdictSet_self (d : List (PStr × PStr)) (k v : PStr) :
    k ∈ (pdictSet d k v).map (fun p => p.1) := by
  induction d with
  | nil => simp [pdictSet]
  | cons kv rest ih =>
      by_cases hk : kv.1 = k
      · simp [pdictSet, hk]
      · simp only [pdictSet, if_neg hk, List.map_cons, List.mem_cons]
        exact Or.inr ih

/-- Dict update never removes keys. -/
theorem mem_keys_pdictSet_mono (d : List (PStr × PStr)) (k' v k₀ : PStr)
    (h : k₀ ∈ d.map (fun p => p.1)) :
    k₀ ∈ (pdictSet d k' v).map (fun p => p.1) := by
  induction d with
  | nil => simp at h
  | cons kv rest ih =>
      by_cases hk : kv.1 = k'
      · simp only [List.map_cons, List.mem_cons] at h
        simp only [pdictSet, if_pos hk, List.map_cons, List.mem_cons]
        rcases h with h | h
        · exact Or.inl (hk ▸ h)
        · exact Or.inr h
      · simp only [List.map_cons, List.mem_cons] at h
        simp only [pdictSet, if_neg hk, List.map_cons, List.mem_cons]
        rcases h with h | h
        · exact Or.inl h
        · exact Or.inr (ih h)

/-- One settings step preserves the default-label lookup. -/
theorem tglStep_preserves_default (d : List (PStr × PStr)) (kv : PStr × PStr)
    (hd : pdictLookup d ("label::English (en)".toList) = some ("Typing".toList)) :
    pdictLookup (tglStep d kv) ("label::English (en)".toList) = some ("Typing".toList) := by
  unfold tglStep
  by_cases hc : (tglHead.isPrefixOf kv.1 && !kv.2.isEmpty) = true
  · rw [if_pos hc]
    have hpre : tglHead.isPrefixOf kv.1 = true := (Bool.and_eq_true_iff.mp hc).1
    have hne : removeTypingGroup kv.1 ≠ "label::English (en)".toList :=
      label_prefixed_ne_default _ (removeTypingGroup_of_tgl kv.1 hpre)
    rw [pdictLookup_pdictSet_ne _ _ _ _ hne]
    exact hd
  · rw [if_neg hc]
    exact hd

/-- The settings fold preserves the default-label lookup. -/
theorem tgl_foldl_preserves_default (settings : List (PStr × PStr))
    (d : List (PStr × PStr))
    (hd : pdictLookup d ("label::English (en)".toList) = some ("Typing".toList)) :
    pdictLookup (settings.foldl tglStep d) ("label::English (en)".toList)
      = some ("Typing".toList) := by
  induction settings generalizing d with
  | nil => exact hd
  | cons kv rest ih =>
      exact ih (tglStep d kv) (tglStep_preserves_default d kv hd)

/-- The settings fold never removes keys. -/
theorem tgl_foldl_keys_mono (settings : List (PStr × PStr))
    (d : List (PStr × PStr)) (k₀ : PStr)
    (h : k₀ ∈ d.map (fun p => p.1)) :
    k₀ ∈ (settings.foldl tglStep d).map (fun p => p.1) := by
  induction settings generalizing d with
  | nil => exact h
  | cons kv rest ih =>
      refine ih (tglStep d kv) ?_
      unfold tglStep
      by_cases hc : (tglHead.isPrefixOf kv.1 && !kv.2.isEmpty) = true
      · rw [if_pos hc]; exact mem_keys_pdictSet_mono _ _ _ _ h
      · rw [if_neg hc]; exact h

/-- A qualifying settings entry leaves its rewritten key in the final
dict. -/
theorem tgl_foldl_key_stored (settings : List (PStr × PStr))
    (d : List (PStr × PStr)) (kv : PStr × PStr) (hmem : kv ∈ settings)
    (hc : (tglHead.isPrefixOf kv.1 && !kv.2.isEmpty) = true) :
    removeTypingGroup kv.1 ∈ (settings.foldl tglStep d).map (fun p => p.1) := by
  induction settings generalizing d with
  | nil => cases hmem
  | cons x rest ih =>
      rcases List.mem_cons.mp hmem with h | h
      · subst h
        refine tgl_foldl_keys_mono rest (tglStep d kv) _ ?_
        unfold tglStep
        rw [if_pos hc]
        exact mem_keys_pdictSet_self _ _ _
      · exact ih (tglStep d x) h

/-- Claim C9: `generate_form`'s typing-group label mapping always maps
the column `"label::English (en)"` to `"Typing"`; every settings key
starting with `"typing_group_label"` with a truthy value is stored
under the key with `"typing_group"` removed, which begins with
`"_label"`, so the default entry is never overwritten. -/
theorem claim_C9_typing_group_label_default_preserved
    (settings : List (PStr × PStr)) :
    pdictLookup (typing_group_label settings) ("label::English (en)".toList)
        = some ("Typing".toList)
    ∧ ∀ kv ∈ settings, tglHead.isPrefixOf kv.1 = true → kv.2 ≠ [] →
        ("_label".toList).isPrefixOf (removeTypingGroup kv.1) = true
        ∧ removeTypingGroup kv.1 ∈ (typing_group_label settings).map (fun p => p.1) := by
  constructor
  · exact tgl_foldl_preserves_default settings _ (by decide)
  · intro kv hmem hpre hval
    have hemp : kv.2.isEmpty = false := by
      cases h2 : kv.2 with
      | nil => exact absurd h2 hval
      | cons a as => rfl
    have hc : (tglHead.isPrefixOf kv.1 && !kv.2.isEmpty) = true := by
      rw [hpre, hemp]; rfl
    exact ⟨removeTypingGroup_of_tgl kv.1 hpre,
      tgl_foldl_key_stored settings _ kv hmem hc⟩

/-- Claim C9 witness: the theorem applied to the concrete settings list
containing the override `typing_group_label::English (en) = Custom`. -/
theorem claim_C9_witness :
    pdictLookup
        (typing_group_label [("typing_group_label::English (en)".toList, "Custom".toList)])
        ("label::English (en)".toList) = some ("Typing".toList)
    ∧ ("_label".toList).isPrefixOf
        (removeTypingGroup ("typing_group_label::English (en)".toList)) = true := by
  have h := claim_C9_typing_group_label_default_preserved
    [("typing_group_label::English (en)".toList, "Custom".toList)]
  refine ⟨h.1, ?_⟩
  exact (h.2 ("typing_group_label::English (en)".toList, "Custom".toList)
    (by simp) (by decide) (by decide)).1

/-- Claim C5 counterexample: with `merge_duplicate_questions = true`
(its default) the component ranks along `generate_form`'s stage trace
are not monotone — the hide-option pass, an Option Engine transform
(spec section 2), runs after the Deduplicator, so the emitters do not
consume the Deduplicator's output directly. -/
theorem claim_C5_counterexample : ¬ stageOrderClaim false true := by
  unfold stageOrderClaim
  decide

/-- Claim C5 (amended): `generate_form` composes Split Parser, Tree
Builder once per stratum, Tree Merger, Relevance Compiler, the Option
Engine passes, the optional Deduplicator, then a final hide-option
pass, and finally the emitters — with the hide pass between the
Deduplicator and the emitters, the stage ranks along the trace are
monotone for every flag combination. -/
theorem claim_C5_stage_order_with_hide_after_dedup
    (skipUnavailableChoices mergeDuplicateQuestions : Bool) :
    ranksMonotoneB
      ((generate_form_trace skipUnavailableChoices mergeDuplicateQuestions).filterMap
        amendedRank) = true := by
  cases skipUnavailableChoices <;> cases mergeDuplicateQuestions <;> decide

/-- Claim C3 counterexample: with `merge_duplicate_questions = true`
the trace of `generate_form` contains a configured-transform
application (the hide-option pass) after the Deduplicator event, so the
hide transform kind IS deferred and applied after a later pipeline
stage, out of its configured position. -/
theorem claim_C3_counterexample : ¬ noDeferredTransforms false true := by
  unfold noDeferredTransforms
  decide

/-- Claim C3 (amended): the Option Engine itself applies the configured
transforms in exactly the caller-specified order — `apply_options` is
the left-to-right monadic fold of the individual transform functions —
but the pipeline applies hide options in a separate pass after the
optional Deduplicator, so the hide kind is applied out of its
configured position whenever deduplication is enabled. -/
theorem claim_C3_engine_folds_in_caller_order :
    (∀ (options : List OptionCfg) (t : FormTree Atom),
        apply_options options t = options.foldlM (fun acc o => applyOption o acc) t)
    ∧ (∀ skipUnavailableChoices : Bool,
        (generate_form_trace skipUnavailableChoices true).indexOf StageEvent.skipDuplicates
          < (generate_form_trace skipUnavailableChoices true).indexOf
              StageEvent.applyHideOptionsStage) := by
  constructor
  · intro options
    induction options with
    | nil => intro t; rfl
    | cons o rest ih =>
        intro t
        rw [List.foldlM_cons]
        cases h : applyOption o t with
        | ok t' =>
            simp only [apply_options, h, ih t']
            rfl
        | error e =>
            simp only [apply_options, h]
            rfl
  · intro su
    cases su <;> decide

/-- Claim C7: the emitters are deterministic functions of the tree —
calling the survey-row, choices-row or diagram emitter twice on the
same tree produces identical output, and the survey rows are exactly
the pre-order question-row sequence mapped through a fixed row
constructor (no unordered iteration). -/
theorem claim_C7_emitters_deterministic (t : FormTree Atom) :
    get_survey_rows t = get_survey_rows t
    ∧ get_choices_rows t = get_choices_rows t
    ∧ create_form_diagram t true = create_form_diagram t true
    ∧ get_survey_rows t = (questionRows t).map mkSurveyRow := by
  refine ⟨rfl, rfl, rfl, ?_⟩
  induction t with
  | leaf rel s c => rfl
  | node rel q skip cl l cr r ihl ihr =>
      simp only [get_survey_rows, questionRows, List.map_append, ihl, ihr]
      cases skip <;> simp

/-! ### Helper lemmas for the relevance compiler -/

/-- The compiler annotates the root of a subtree with exactly the
accumulated relevance. -/
theorem relOf_compile_relevance (p : BExpr α) (t : FormTree α) :
    relOf (compile_relevance p t) = p := by
  cases t <;> rfl

/-- The compiled tree satisfies the per-node shape invariant. -/
theorem childShapeB_compile_relevance [DecidableEq α] (t : FormTree α) :
    ∀ p : BExpr α, childShapeB (compile_relevance p t) = true := by
  induction t with
  | leaf rel s c => intro p; rfl
  | node rel q skip cl l cr r ihl ihr =>
      intro p
      simp [compile_relevance, childShapeB, relOf_compile_relevance, ihl, ihr]

/-- Claim C6 counterexample: after the Deduplicator (a subsequent
stage), the collapsed first occurrence of the duplicated question in
the compiled section 8 tree carries the OR of the group's relevance
expressions, which is not its parent's relevance conjoined with one
atomic condition — the per-node shape clause of the claim fails. -/
theorem claim_C6_counterexample :
    ¬ (childShapeB (skip_duplicate_questions (compile_relevance BExpr.tru t6)) = true) := by
  decide

/-- Claim C6 (amended): after the Relevance Compiler runs, the root's
relevance is the constant true and every non-root node's relevance is
its parent's conjoined with exactly one additional atomic condition —
never shorter than the parent's and never satisfiable when the parent's
is unsatisfiable.  (The Deduplicator, a subsequent stage, rewrites
collapsed occurrences' relevance to the OR of their group, so the
per-node shape does not survive it — see the counterexample.) -/
theorem claim_C6_relevance_compiler_invariant (t : FormTree Atom) :
    relOf (compile_relevance BExpr.tru t) = BExpr.tru
    ∧ (∀ p : BExpr Atom, childShapeB (compile_relevance p t) = true)
    ∧ (∀ (p : BExpr Atom) (a : Atom) (σ : Atom → Bool),
        (BExpr.and p (BExpr.atom a)).eval σ = true → p.eval σ = true)
    ∧ (∀ (p : BExpr Atom) (a : Atom), p.size < (BExpr.and p (BExpr.atom a)).size) := by
  refine ⟨relOf_compile_relevance _ t, childShapeB_compile_relevance t, ?_, ?_⟩
  · intro p a σ h
    have h' := h
    simp only [BExpr.eval, Bool.and_eq_true] at h'
    exact h'.1
  · intro p a
    simp [BExpr.size]
    omega

/-- Claim C6 witness: the amended theorem applied to the concrete
section 8 tree, with the unsatisfiability-monotonicity conjunct
instantiated at the constant-true parent and an all-true assignment. -/
theorem claim_C6_witness :
    relOf (compile_relevance BExpr.tru t6) = BExpr.tru
    ∧ childShapeB (compile_relevance BExpr.tru t6) = true
    ∧ (BExpr.tru : BExpr Atom).eval (fun _ => true) = true := by
  have h := claim_C6_relevance_compiler_invariant t6
  exact ⟨h.1, h.2.1 BExpr.tru,
    h.2.2.1 BExpr.tru ("strata", "rural") (fun _ => true) (by decide)⟩

/-! ### Helper lemmas for the deduplicator -/

/-- A satisfied member makes the disjunction of its group satisfied. -/
theorem orAll_eval_of_mem (g : List (BExpr α)) (r : BExpr α) (σ : α → Bool)
    (hmem : r ∈ g) (hr : r.eval σ = true) : (orAll g).eval σ = true := by
  induction g with
  | nil => cases hmem
  | cons e rest ih =>
      cases rest with
      | nil =>
          rcases List.mem_cons.mp hmem with h | h
          · subst h; simpa [orAll] using hr
          · cases h
      | cons f rs =>
          rcases List.mem_cons.mp hmem with h | h
          · subst h
            simp [orAll, BExpr.eval, hr]
          · have hrec := ih h
            simp [orAll, BExpr.eval, hrec]

/-- Two members of a list of length at most one are equal. -/
theorem eq_of_mem_of_length_le_one {l : List (BExpr α)} {a b : BExpr α}
    (h : l.length ≤ 1) (ha : a ∈ l) (hb : b ∈ l) : a = b := by
  cases l with
  | nil => cases ha
  | cons x rest =>
      cases rest with
      | nil =>
          simp only [List.mem_singleton] at ha hb
          rw [ha, hb]
      | cons y ys => simp at h

/-- An occurrence's relevance belongs to its key's group. -/
theorem mem_groupRels_of_mem (occs : List (QKey × BExpr α)) (k : QKey) (r : BExpr α)
    (h : (k, r) ∈ occs) : r ∈ groupRels k occs := by
  refine List.mem_map.mpr ⟨(k, r), ?_, rfl⟩
  exact List.mem_filter.mpr ⟨h, by simp⟩

/-- Scanning an appended occurrence list threads the seen set. -/
theorem seenAfter_append (seen : List QKey) (xs ys : List (QKey × BExpr α)) :
    seenAfter seen (xs ++ ys) = seenAfter (seenAfter seen xs) ys := by
  simp [seenAfter, List.foldl_append]

/-- The row scan distributes over appended occurrence lists. -/
theorem dedupRowsAux_append (occs xs ys : List (QKey × BExpr α)) :
    ∀ seen, dedupRowsAux occs seen (xs ++ ys)
      = dedupRowsAux occs seen xs ++ dedupRowsAux occs (seenAfter seen xs) ys := by
  induction xs with
  | nil => intro seen; simp [dedupRowsAux, seenAfter]
  | cons p rest ih =>
      intro seen
      by_cases hp : p.1 ∈ seen
      · simp only [List.cons_append, dedupRowsAux, if_pos hp, List.append_eq]
        rw [ih]
        have hsa : seenAfter seen (p :: rest) = seenAfter seen rest := by
          simp [seenAfter, List.foldl_cons, if_pos hp]
        rw [hsa]
      · simp only [List.cons_append, dedupRowsAux, if_neg hp, List.append_eq]
        rw [ih]
        have hsa : seenAfter seen (p :: rest) = seenAfter (p.1 :: seen) rest := by
          simp [seenAfter, List.foldl_cons, if_neg hp]
        rw [hsa]

/-- Before deduplication every question occurrence emits a row. -/
theorem questionRows_length_of_noSkips (t : FormTree α) (h : noSkipsB t = true) :
    (questionRows t).length = (occsOf t).length := by
  induction t with
  | leaf rel s c => rfl
  | node rel q skip cl l cr r ihl ihr =>
      simp only [noSkipsB, Bool.and_eq_true, Bool.not_eq_true'] at h
      obtain ⟨⟨hs, hl⟩, hr⟩ := h
      subst hs
      simp [questionRows, occsOf, ihl hl, ihr hr]

/-- The row scan emits one row per distinct unseen key. -/
theorem dedupRowsAux_length (occs : List (QKey × BExpr α)) :
    ∀ (xs : List (QKey × BExpr α)) (seen : List QKey),
      (dedupRowsAux occs seen xs).length
        = distinctNewCount seen (xs.map (fun p => p.1)) := by
  intro xs
  induction xs with
  | nil => intro seen; rfl
  | cons p rest ih =>
      intro seen
      by_cases hp : p.1 ∈ seen
      · simp [dedupRowsAux, distinctNewCount, hp, ih]
      · simp [dedupRowsAux, distinctNewCount, hp, ih]
        omega

/-- The number of distinct unseen keys as a Finset cardinality. -/
theorem distinctNewCount_eq_card (ks : List QKey) :
    ∀ seen : List QKey,
      distinctNewCount seen ks = (ks.toFinset \ seen.toFinset).card := by
  induction ks with
  | nil => intro seen; simp [distinctNewCount]
  | cons k rest ih =>
      intro seen
      by_cases hk : k ∈ seen
      · have hk' : k ∈ seen.toFinset := List.mem_toFinset.mpr hk
        simp only [distinctNewCount, if_pos hk, ih, List.toFinset_cons]
        rw [Finset.insert_sdiff_of_mem _ hk']
      · have hk' : k ∉ seen.toFinset := fun h => hk (List.mem_toFinset.mp h)
        simp only [distinctNewCount, if_neg hk, ih, List.toFinset_cons]
        rw [Finset.insert_sdiff_of_not_mem _ hk', Finset.sdiff_insert]
        have hins : insert k (rest.toFinset \ seen.toFinset)
            = insert k ((rest.toFinset \ seen.toFinset).erase k) := by
          ext x
          simp only [Finset.mem_insert, Finset.mem_erase]
          constructor
          · rintro (h | h)
            · exact Or.inl h
            · by_cases hx : x = k
              · exact Or.inl hx
              · exact Or.inr ⟨hx, h⟩
          · rintro (h | h)
            · exact Or.inl h
            · exact Or.inr h.2
        rw [hins, Finset.card_insert_of_not_mem (Finset.not_mem_erase k _)]
        omega

/-- A list whose mapped values are all positive has length at most
their sum. -/
theorem length_le_sum_map (f : QKey → Nat) :
    ∀ l : List QKey, (∀ k ∈ l, 1 ≤ f k) → l.length ≤ (l.map f).sum := by
  intro l
  induction l with
  | nil => intro _; simp
  | cons k rest ih =>
      intro h
      have hk := h k (List.mem_cons_self k rest)
      have hrest := ih fun k' hk' => h k' (List.mem_cons_of_mem _ hk')
      simp only [List.length_cons, List.map_cons, List.sum_cons]
      omega

/-- Summing `f - 1` over a list of positive values. -/
theorem sum_map_sub_one (f : QKey → Nat) :
    ∀ l : List QKey, (∀ k ∈ l, 1 ≤ f k) →
      (l.map (fun k => f k - 1)).sum = (l.map f).sum - l.length := by
  intro l
  induction l with
  | nil => intro _; rfl
  | cons k rest ih =>
      intro h
      have hk := h k (List.mem_cons_self k rest)
      have hrest : ∀ k' ∈ rest, 1 ≤ f k' := fun k' hk' => h k' (List.mem_cons_of_mem _ hk')
      have hlen := length_le_sum_map f rest hrest
      simp only [List.map_cons, List.sum_cons, List.length_cons, ih hrest]
      omega

/-- `keyCount` agrees with `List.count` at the decidable-equality
`BEq` instance (whose equality test is definitionally `decide`). -/
theorem keyCount_eq_count (k : QKey) (ks : List QKey) :
    keyCount k ks = @List.count QKey instBEqOfDecidableEq k ks := by
  unfold keyCount
  rw [show @List.count QKey instBEqOfDecidableEq k ks
      = List.countP (fun x => decide (x = k)) ks from rfl]
  rw [List.countP_eq_length_filter]

/-- A key occurring in the list has a positive group size. -/
theorem keyCount_pos (k : QKey) (ks : List QKey) (hk : k ∈ ks) :
    1 ≤ keyCount k ks := by
  have hmem : k ∈ ks.filter (fun x => decide (x = k)) :=
    List.mem_filter.mpr ⟨hk, by simp⟩
  exact List.length_pos_of_mem hmem

/-- The decrease from total to distinct key count is the sum over
duplicate groups of (group size - 1). -/
theorem length_sub_dedup_length (ks : List QKey) :
    ks.length - ks.dedup.length = (ks.dedup.map (fun k => keyCount k ks - 1)).sum := by
  have h2 : ∀ k ∈ ks.dedup, 1 ≤ keyCount k ks := fun k hk =>
    keyCount_pos k ks (List.mem_dedup.mp hk)
  rw [sum_map_sub_one (fun k => keyCount k ks) ks.dedup h2]
  have hmc : ks.dedup.map (fun k => keyCount k ks)
      = ks.dedup.map (fun x => @List.count QKey instBEqOfDecidableEq x ks) :=
    List.map_congr_left (fun x _ => keyCount_eq_count x ks)
  rw [hmc, List.sum_map_count_dedup_eq_length]

/-- The emitted rows of a node. -/
theorem rowKeyRels_node (rel : BExpr α) (q : Question) (skip : Bool)
    (cl : α) (l : FormTree α) (cr : α) (r : FormTree α) :
    rowKeyRels (FormTree.node rel q skip cl l cr r)
      = (if skip then [] else [(qkey q, rel)]) ++ rowKeyRels l ++ rowKeyRels r := by
  cases skip <;> simp [rowKeyRels, questionRows]

/-- Scanning one occurrence updates the seen set by one fold step. -/
theorem seenAfter_cons (seen : List QKey) (p : QKey × BExpr α)
    (xs : List (QKey × BExpr α)) :
    seenAfter seen (p :: xs)
      = seenAfter (if p.1 ∈ seen then seen else p.1 :: seen) xs := rfl

/-- The deduplicator's rewrite pass emits exactly the rows of the
occurrence-list scan and threads the seen set like the scan. -/
theorem markDup_spec (t : FormTree α) :
    ∀ (occs : List (QKey × BExpr α)) (seen : List QKey), noSkipsB t = true →
      rowKeyRels (markDup occs seen t).1 = dedupRowsAux occs seen (occsOf t)
      ∧ (markDup occs seen t).2 = seenAfter seen (occsOf t) := by
  induction t with
  | leaf rel s c => intro occs seen _; exact ⟨rfl, rfl⟩
  | node rel q skip cl l cr r ihl ihr =>
      intro occs seen ht
      simp only [noSkipsB, Bool.and_eq_true, Bool.not_eq_true'] at ht
      obtain ⟨⟨hs, hl⟩, hr⟩ := ht
      subst hs
      by_cases hk : qkey q ∈ seen
      · obtain ⟨hl1, hl2⟩ := ihl occs seen hl
        obtain ⟨hr1, hr2⟩ := ihr occs (seenAfter seen (occsOf l)) hr
        constructor
        · simp [markDup, hk, rowKeyRels_node, occsOf, dedupRowsAux,
            dedupRowsAux_append, hl1, hl2, hr1]
        · simp [markDup, hk, occsOf, seenAfter_cons, seenAfter_append, hl2, hr2]
      · obtain ⟨hl1, hl2⟩ := ihl occs (qkey q :: seen) hl
        obtain ⟨hr1, hr2⟩ := ihr occs (seenAfter (qkey q :: seen) (occsOf l)) hr
        constructor
        · simp [markDup, hk, rowKeyRels_node, occsOf, dedupRowsAux,
            dedupRowsAux_append, hl1, hl2, hr1]
        · simp [markDup, hk, occsOf, seenAfter_cons, seenAfter_append, hl2, hr2]

/-- Every ancestor entry of a leaf path comes from the surrounding
ancestor list or is an occurrence of the tree. -/
theorem leavesWithPath_mem_occs (t : FormTree α) :
    ∀ (anc : List (QKey × BExpr α)) e, e ∈ leavesWithPath anc t →
      ∀ p ∈ e.1, p ∈ anc ∨ p ∈ occsOf t := by
  induction t with
  | leaf rel s c =>
      intro anc e he p hp
      simp only [leavesWithPath, List.mem_singleton] at he
      subst he
      exact Or.inl hp
  | node rel q skip cl l cr r ihl ihr =>
      intro anc e he p hp
      simp only [leavesWithPath, List.mem_append] at he
      rcases he with he | he
      · rcases ihl _ e he p hp with h | h
        · rcases List.mem_append.mp h with h' | h'
          · exact Or.inl h'
          · right
            simp only [List.mem_singleton] at h'
            simp [occsOf, h']
        · right
          simp only [occsOf, List.mem_cons, List.mem_append]
          exact Or.inr (Or.inl h)
      · rcases ihr _ e he p hp with h | h
        · rcases List.mem_append.mp h with h' | h'
          · exact Or.inl h'
          · right
            simp only [List.mem_singleton] at h'
            simp [occsOf, h']
        · right
          simp only [occsOf, List.mem_cons, List.mem_append]
          exact Or.inr (Or.inr h)

/-- Projecting a leaf path to its ancestor keys lands in
`leavesWithKeys`. -/
theorem leavesWithPath_proj (t : FormTree α) :
    ∀ (anc : List (QKey × BExpr α)) e, e ∈ leavesWithPath anc t →
      (e.1.map (fun p => p.1), e.2)
        ∈ leavesWithKeys (anc.map (fun p => p.1)) t := by
  induction t with
  | leaf rel s c =>
      intro anc e he
      simp only [leavesWithPath, List.mem_singleton] at he
      subst he
      simp [leavesWithKeys]
  | node rel q skip cl l cr r ihl ihr =>
      intro anc e he
      simp only [leavesWithPath, List.mem_append] at he
      simp only [leavesWithKeys, List.mem_append]
      rcases he with he | he
      · left
        have h := ihl _ e he
        simpa [List.map_append, qkey] using h
      · right
        have h := ihr _ e he
        simpa [List.map_append, qkey] using h

/-- The deduplicator's rewrite pass does not change the leaves or their
ancestor key lists. -/
theorem leavesWithKeys_markDup (t : FormTree α) :
    ∀ (occs : List (QKey × BExpr α)) (seen : List QKey) (anc : List QKey),
      leavesWithKeys anc (markDup occs seen t).1 = leavesWithKeys anc t := by
  induction t with
  | leaf rel s c => intro occs seen anc; rfl
  | node rel q skip cl l cr r ihl ihr =>
      intro occs seen anc
      simp [markDup, leavesWithKeys, ihl, ihr]

/-- The row scan emits, for any key occurring in the scanned list and
not yet seen, exactly one row whose relevance is the OR of the key's
whole group (or the sole group member for a singleton group). -/
theorem dedupRowsAux_find (occs : List (QKey × BExpr α)) :
    ∀ (xs : List (QKey × BExpr α)) (seen : List QKey) (k : QKey) (r : BExpr α),
      (∀ p ∈ xs, p ∈ occs) → (k, r) ∈ xs → k ∉ seen →
      ∃ rel', ((dedupRowsAux occs seen xs).find? (fun p => decide (p.1 = k)))
          = some (k, rel')
        ∧ (rel' = orAll (groupRels k occs)
            ∨ (rel' ∈ groupRels k occs ∧ (groupRels k occs).length ≤ 1)) := by
  intro xs
  induction xs with
  | nil => intro seen k r _ hmem _; cases hmem
  | cons p rest ih =>
      intro seen k r hsub hmem hns
      by_cases hp : p.1 ∈ seen
      · have hmem' : (k, r) ∈ rest := by
          rcases List.mem_cons.mp hmem with h | h
          · exfalso
            apply hns
            have : p.1 = k := by rw [← h]
            rw [← this]
            exact hp
          · exact h
        simp only [dedupRowsAux, if_pos hp]
        exact ih seen k r (fun p' hp' => hsub p' (List.mem_cons_of_mem _ hp')) hmem' hns
      · by_cases hpk : p.1 = k
        · refine ⟨if 1 < (groupRels k occs).length then orAll (groupRels k occs) else p.2,
            ?_, ?_⟩
          · simp only [dedupRowsAux, if_neg hp]
            rw [List.find?_cons_of_pos _ (by simp [hpk])]
            rw [hpk]
          · by_cases hg : 1 < (groupRels k occs).length
            · left; simp [hg]
            · right
              refine ⟨?_, by omega⟩
              simp only [if_neg hg]
              apply mem_groupRels_of_mem occs k p.2
              have hpo : p ∈ occs := hsub p (List.mem_cons_self p rest)
              rw [← hpk]
              exact hpo
        · have hmem' : (k, r) ∈ rest := by
            rcases List.mem_cons.mp hmem with h | h
            · exfalso
              apply hpk
              rw [← h]
            · exact h
          have hns' : k ∉ p.1 :: seen := by
            intro hmm
            rcases List.mem_cons.mp hmm with h | h
            · exact hpk h.symm
            · exact hns h
          simp only [dedupRowsAux, if_neg hp]
          rw [List.find?_cons_of_neg _ (by simp [hpk])]
          exact ih (p.1 :: seen) k r (fun p' hp' => hsub p' (List.mem_cons_of_mem _ hp'))
            hmem' hns'

/-- The deduplicated tree emits one question row per distinct key. -/
theorem dedup_questionRows_length (t : FormTree α) (ht : noSkipsB t = true) :
    (questionRows (skip_duplicate_questions t)).length = (keysOf t).dedup.length := by
  have h := (markDup_spec t (occsOf t) [] ht).1
  have hlen : (questionRows (skip_duplicate_questions t)).length
      = (rowKeyRels (skip_duplicate_questions t)).length := by
    simp [rowKeyRels]
  rw [hlen]
  unfold skip_duplicate_questions
  rw [h, dedupRowsAux_length, distinctNewCount_eq_card]
  simp [List.card_toFinset, keysOf]

/-- Claim C1 counterexample: on a tree whose single duplicate group has
THREE occurrences of the same question, deduplication removes two
question rows while the number of collapsed duplicate groups is one —
the claimed "decreases by exactly the number of duplicate groups"
fails. -/
theorem claim_C1_counterexample :
    (questionRows t3).length - (questionRows (skip_duplicate_questions t3)).length = 2
    ∧ dupGroupCount t3 = 1
    ∧ ¬((questionRows t3).length - (questionRows (skip_duplicate_questions t3)).length
        = dupGroupCount t3) := by
  refine ⟨?_, ?_, ?_⟩ <;> decide

/-- Claim C1 (amended): deduplication does not change the
answerable-outcome set — every leaf reachable under the original
per-node relevance expressions is still answerable through the
collapsed (OR'd) question rows, with identical terminal class and
stratum provenance — and the number of question rows decreases from the
number of occurrences to the number of distinct (identity, type,
choice-set) keys, i.e. by the sum over duplicate groups of (group
size - 1). -/
theorem claim_C1_dedup_preserves_outcomes (t : FormTree Atom)
    (ht : noSkipsB t = true) :
    (questionRows t).length = (keysOf t).length
    ∧ (questionRows (skip_duplicate_questions t)).length = (keysOf t).dedup.length
    ∧ (keysOf t).length - (keysOf t).dedup.length
        = ((keysOf t).dedup.map (fun k => keyCount k (keysOf t) - 1)).sum
    ∧ ∀ (σ : Atom → Bool) e, e ∈ leavesWithPath [] t → reachedOrig σ e →
        ∃ e', e' ∈ leavesWithKeys [] (skip_duplicate_questions t)
          ∧ e'.2 = e.2 ∧ reachedDedup σ (skip_duplicate_questions t) e' := by
  refine ⟨?_, dedup_questionRows_length t ht, length_sub_dedup_length (keysOf t), ?_⟩
  · rw [questionRows_length_of_noSkips t ht]
    simp [keysOf]
  · intro σ e hmem hreach
    refine ⟨(e.1.map (fun p => p.1), e.2), ?_, rfl, ?_⟩
    · unfold skip_duplicate_questions
      rw [leavesWithKeys_markDup]
      have h := leavesWithPath_proj t [] e hmem
      simpa using h
    · refine ⟨hreach.1, ?_⟩
      intro k hkmem
      rcases List.mem_map.mp hkmem with ⟨p, hp, hpk⟩
      have hev : p.2.eval σ = true := hreach.2 p hp
      have hpo : p ∈ occsOf t := by
        rcases leavesWithPath_mem_occs t [] e hmem p hp with h | h
        · simp at h
        · exact h
      have hko : (k, p.2) ∈ occsOf t := by
        rw [← hpk]
        exact hpo
      rcases dedupRowsAux_find (occsOf t) (occsOf t) [] k p.2
          (fun p' hp' => hp') hko (by simp) with ⟨rel', hfound, hbranch⟩
      have hrows : rowKeyRels (skip_duplicate_questions t)
          = dedupRowsAux (occsOf t) [] (occsOf t) := by
        unfold skip_duplicate_questions
        exact (markDup_spec t (occsOf t) [] ht).1
      refine ⟨rel', ?_, ?_⟩
      · unfold rowRelFor
        rw [hrows, hfound]
        rfl
      · have hg : p.2 ∈ groupRels k (occsOf t) :=
          mem_groupRels_of_mem (occsOf t) k p.2 hko
        rcases hbranch with hb | ⟨hb, hle⟩
        · rw [hb]
          exact orAll_eval_of_mem _ p.2 σ hg hev
        · rw [eq_of_mem_of_length_le_one hle hb hg]
          exact hev

/-- Claim C1 witness: the amended theorem applied to the compiled
section 8 two-branch tree `tW` under the all-true assignment,
exhibiting the still-answerable first leaf. -/
theorem claim_C1_witness :
    noSkipsB tW = true
    ∧ (questionRows (skip_duplicate_questions tW)).length = (keysOf tW).dedup.length
    ∧ ∃ e', e' ∈ leavesWithKeys [] (skip_duplicate_questions tW)
        ∧ e'.2 = eW.2 ∧ reachedDedup (fun _ => true) (skip_duplicate_questions tW) e' := by
  have h := claim_C1_dedup_preserves_outcomes tW (by decide)
  exact ⟨by decide, h.2.1, h.2.2.2 (fun _ => true) eW (by decide) ⟨by decide, by decide⟩⟩
